import Mathlib

/-!
Shallow embedding of `include/util/math.hpp` (namespace `rack`).

Modelling conventions:
* C `int` is modelled as `ℤ`.  The C `%` operator is truncating remainder,
  i.e. `Int.tmod`.  None of the verified claims' domains reach 32-bit
  overflow, so unbounded integers are a faithful model there.
* C `float` is modelled as `ℚ`: the claims under verification are exact
  algebraic/order facts (clamping, interpolation, complex multiplication),
  for which rational arithmetic agrees with any exact-real reading of the
  spec.  `fminf`/`fmaxf` on non-NaN arguments are `min`/`max`.
* The one claim that is genuinely about the IEEE-754 sign bit (`sgnf` on
  signed zeros) uses a separate sign-magnitude float model `SFloat`, on
  which `copysignf` is exact.
* `interpf` reads a raw pointer; it is embedded with checked list indexing
  returning `Option`, so an out-of-bounds access is the `none` branch.
* `cmultf` writes through two pointers; it is embedded over an explicit
  memory `ℕ → ℚ` with cell addresses, so pointer aliasing is expressible.
-/

namespace rack

/-- C++: `inline int clampi(int x, int min, int max)`:
`if (x < min) return min; if (x > max) return max; return x;` -/
def clampi (x mn mx : ℤ) : ℤ :=
  if x < mn then mn
  else if x > mx then mx
  else x

/-- C++: `inline int eucmodi(int a, int base)`:
`int mod = a % base; return (mod >= 0) ? mod : mod + base;`
(C `%` is truncating remainder, `Int.tmod`.) -/
def eucmodi (a base : ℤ) : ℤ :=
  let mod := Int.tmod a base
  if mod ≥ 0 then mod else mod + base

/-- C++: `inline int log2i(int n)`:
`int i = 0; while (n >>= 1) { i++; } return i;`
Each iteration halves `n` (for nonnegative `n`, `n >> 1 = n / 2`) and the
loop stops when the halved value reaches 0; `i` counts the iterations.
Nonnegative inputs only (the claims' precondition); on them the C loop
terminates and this equation is its exact unfolding. -/
def log2i (n : ℕ) : ℕ :=
  if _h : n / 2 = 0 then 0 else 1 + log2i (n / 2)
decreasing_by exact Nat.div_lt_self (by omega) (by omega)

/-- C++: `inline float clampf(float x, float min, float max)`:
`if (x < min) return min; if (x > max) return max; return x;` -/
def clampf (x mn mx : ℚ) : ℚ :=
  if x < mn then mn
  else if x > mx then mx
  else x

/-- C++: `inline float clamp2f(float x, float min, float max)`:
`return clampf(x, fminf(min, max), fmaxf(min, max));` -/
def clamp2f (x mn mx : ℚ) : ℚ :=
  clampf x (min mn mx) (max mn mx)

/-- C++: `inline float crossf(float a, float b, float frac)`:
`return a + frac * (b - a);` -/
def crossf (a b frac : ℚ) : ℚ :=
  a + frac * (b - a)

/-- The C float→int conversion `int xi = x;` truncates toward zero. -/
def truncf (x : ℚ) : ℤ :=
  if 0 ≤ x then ⌊x⌋ else -⌊-x⌋

/-- Checked read of a C array modelled as a list: `none` is an
out-of-bounds access. -/
def readIdx (p : List ℚ) (i : ℤ) : Option ℚ :=
  if 0 ≤ i then p.get? i.toNat else none

/-- C++: `inline float interpf(const float *p, float x)`:
`int xi = x; float xf = x - xi; return crossf(p[xi], p[xi+1], xf);`
with checked indexing for the two array reads. -/
def interpf (p : List ℚ) (x : ℚ) : Option ℚ :=
  let xi : ℤ := truncf x
  let xf : ℚ := x - (xi : ℚ)
  match readIdx p xi, readIdx p (xi + 1) with
  | some a, some b => some (crossf a b xf)
  | _, _ => none

/-- C++: `inline void cmultf(float *cr, float *ci, float ar, float ai, float br, float bi)`:
`*cr = ar * br - ai * bi; *ci = ar * bi + ai * br;`
The value arguments `ar ai br bi` are copies made at call time; the two
stores then hit cells `cr` and `ci` of the memory, in that order. -/
def cmultf (cr ci : ℕ) (ar ai br bi : ℚ) (mem : ℕ → ℚ) : ℕ → ℚ :=
  Function.update (Function.update mem cr (ar * br - ai * bi)) ci (ar * bi + ai * br)

/-- Sign-magnitude model of an IEEE-754 float, carrying exactly the data
`copysignf` manipulates: the sign bit (`neg`) and the magnitude.  `+0.0`
is `⟨false, 0⟩` and `-0.0` is `⟨true, 0⟩`. -/
structure SFloat where
  neg : Bool
  mag : ℚ
deriving DecidableEq

/-- `+0.0` -/
def SFloat.posZero : SFloat := ⟨false, 0⟩

/-- `-0.0` -/
def SFloat.negZero : SFloat := ⟨true, 0⟩

/-- `1.f` -/
def SFloat.one : SFloat := ⟨false, 1⟩

/-- `-1.f` -/
def SFloat.negOne : SFloat := ⟨true, 1⟩

/-- C `copysignf(m, x)`: magnitude of `m`, sign bit of `x` (exact). -/
def copysignf (m x : SFloat) : SFloat :=
  ⟨x.neg, m.mag⟩

/-- C++: `inline float sgnf(float x)`: `return copysignf(1.f, x);` -/
def sgnf (x : SFloat) : SFloat :=
  copysignf SFloat.one x

/-- C++ `struct Vec { float x, y; }`. -/
structure Vec where
  x : ℚ
  y : ℚ
deriving DecidableEq

/-- C++ `struct Rect { Vec pos; Vec size; }`. -/
structure Rect where
  pos : Vec
  size : Vec
deriving DecidableEq

/-- C++: `bool Rect::intersects(Rect r)`:
`(pos.x + size.x > r.pos.x && r.pos.x + r.size.x > pos.x)
 && (pos.y + size.y > r.pos.y && r.pos.y + r.size.y > pos.y)` -/
def Rect.intersects (a r : Rect) : Bool :=
  (a.pos.x + a.size.x > r.pos.x && r.pos.x + r.size.x > a.pos.x)
  && (a.pos.y + a.size.y > r.pos.y && r.pos.y + r.size.y > a.pos.y)

/-- C++: `Rect Rect::clamp(Rect bound)`:
`r.pos.x = clamp2f(pos.x, bound.pos.x, bound.pos.x + bound.size.x);` (same for y);
`r.size.x = clampf(pos.x + size.x, bound.pos.x, bound.pos.x + bound.size.x) - r.pos.x;`
(same for y). -/
def Rect.clamp (s bound : Rect) : Rect :=
  let px := clamp2f s.pos.x bound.pos.x (bound.pos.x + bound.size.x)
  let py := clamp2f s.pos.y bound.pos.y (bound.pos.y + bound.size.y)
  let sx := clampf (s.pos.x + s.size.x) bound.pos.x (bound.pos.x + bound.size.x) - px
  let sy := clampf (s.pos.y + s.size.y) bound.pos.y (bound.pos.y + bound.size.y) - py
  ⟨⟨px, py⟩, ⟨sx, sy⟩⟩

/-- C++: `Rect Rect::nudge(Rect bound)`:
`r.size = size;`
`r.pos.x = clamp2f(pos.x, bound.pos.x, bound.pos.x + bound.size.x - size.x);`
(same for y). -/
def Rect.nudge (s bound : Rect) : Rect :=
  ⟨⟨clamp2f s.pos.x bound.pos.x (bound.pos.x + bound.size.x - s.size.x),
    clamp2f s.pos.y bound.pos.y (bound.pos.y + bound.size.y - s.size.y)⟩,
   s.size⟩

/-! Helper lemmas shared by the claim theorems. -/

/-- C truncating remainder of a negative dividend by a positive divisor is
strictly greater than the negated divisor. -/
theorem neg_lt_tmod (a : ℤ) {b : ℤ} (hb : 0 < b) : -b < a.tmod b := by
  match a, b, Int.eq_succ_of_zero_lt hb with
  | Int.ofNat m, _, ⟨n, rfl⟩ =>
      have h : (0:ℤ) ≤ Int.tmod (Int.ofNat m) (Int.ofNat n.succ) :=
        Int.tmod_nonneg _ (Int.ofNat_nonneg m)
      simp only [Int.ofNat_eq_natCast] at h ⊢
      omega
  | Int.negSucc m, _, ⟨n, rfl⟩ =>
      show -(↑(n.succ) : ℤ) < -(↑(m.succ % n.succ) : ℤ)
      have h : m.succ % n.succ < n.succ := Nat.mod_lt _ n.succ_pos
      omega

/-- The truncating remainder agrees with the Euclidean remainder modulo `b`. -/
theorem tmod_emod (a b : ℤ) : (a.tmod b) % b = a % b := by
  conv_rhs => rw [← Int.tmod_add_tdiv a b]
  rw [Int.add_mul_emod_self_left]

/-- `clampf` stays above an ordered lower bound. -/
theorem le_clampf {mn mx : ℚ} (x : ℚ) (h : mn ≤ mx) : mn ≤ clampf x mn mx := by
  unfold clampf; split_ifs <;> linarith

/-- `clampf` stays below an ordered upper bound. -/
theorem clampf_le {mn mx : ℚ} (x : ℚ) (h : mn ≤ mx) : clampf x mn mx ≤ mx := by
  unfold clampf; split_ifs <;> linarith

/-- When the input is below the upper bound, `clampf` is a max with the
lower bound. -/
theorem clampf_eq_max {x mx : ℚ} (mn : ℚ) (h : x ≤ mx) : clampf x mn mx = max mn x := by
  unfold clampf
  split_ifs with h1 h2
  · rw [max_eq_left (le_of_lt h1)]
  · linarith
  · rw [max_eq_right (le_of_not_lt h1)]

/-- When the input is above the lower bound, `clampf` is a min with the
upper bound. -/
theorem clampf_eq_min {x mn : ℚ} (mx : ℚ) (h : mn ≤ x) : clampf x mn mx = min mx x := by
  unfold clampf
  split_ifs with h1 h2
  · linarith
  · rw [min_eq_left (le_of_lt h2)]
  · rw [min_eq_right (le_of_not_lt h2)]

/-- On ordered bounds `clamp2f` coincides with `clampf`. -/
theorem clamp2f_eq_clampf {mn mx : ℚ} (x : ℚ) (h : mn ≤ mx) :
    clamp2f x mn mx = clampf x mn mx := by
  unfold clamp2f
  rw [min_eq_left h, max_eq_right h]

/-- On inverted bounds `clamp2f` coincides with `clampf` on the swapped
bounds. -/
theorem clamp2f_eq_clampf_swap {mn mx : ℚ} (x : ℚ) (h : mx ≤ mn) :
    clamp2f x mn mx = clampf x mx mn := by
  unfold clamp2f
  rw [min_eq_right h, max_eq_left h]

/-! The claim theorems. -/

/-- C1: for every integer `a` and every integer `base > 0`,
`eucmodi(a, base)` satisfies `0 <= eucmodi(a, base) < base` and is
congruent to `a` modulo `base`. -/
theorem eucmodi_spec (a base : ℤ) (hbase : 0 < base) :
    0 ≤ eucmodi a base ∧ eucmodi a base < base
      ∧ Int.ModEq base (eucmodi a base) a := by
  have h1 : Int.tmod a base < base := Int.tmod_lt_of_pos a hbase
  have h2 : -base < Int.tmod a base := neg_lt_tmod a hbase
  have h3 : (Int.tmod a base) % base = a % base := tmod_emod a base
  unfold Int.ModEq
  simp only [eucmodi]
  split
  · exact ⟨by omega, by omega, by omega⟩
  · refine ⟨by omega, by omega, ?_⟩
    have h4 : (Int.tmod a base + base * 1) % base = (Int.tmod a base) % base :=
      Int.add_mul_emod_self_left _ _ _
    rw [mul_one] at h4
    exact h4.trans h3

/-- Witness for C1 at `a = -7`, `base = 3`. -/
theorem eucmodi_spec_witness :
    (0:ℤ) < 3
    ∧ (0 ≤ eucmodi (-7) 3 ∧ eucmodi (-7) 3 < 3 ∧ Int.ModEq 3 (eucmodi (-7) 3) (-7)) :=
  ⟨by norm_num, eucmodi_spec (-7) 3 (by norm_num)⟩

/-- C2: for every rectangle and every bound whose span is well-formed
(`0 ≤ bound.size` per axis), `Rect.clamp` clamps the position into the
bound's span, clamps the far edge into the bound's span (so the size is
the clamped far edge minus the clamped position), yields a sub-rectangle
of `bound`; on an axis where the two spans meet it is exactly the
intersection with the original, on an axis where the original lies
entirely outside the bound the resulting size component is zero or
negative (here: zero when the original span is ordered on that side), and
negative resulting sizes are preserved, not floored to zero (closed
instance). -/
theorem Rect.clamp_spec (s bound : Rect)
    (hbx : 0 ≤ bound.size.x) (hby : 0 ≤ bound.size.y) :
    ((s.clamp bound).pos.x = clampf s.pos.x bound.pos.x (bound.pos.x + bound.size.x)
      ∧ (s.clamp bound).pos.y = clampf s.pos.y bound.pos.y (bound.pos.y + bound.size.y))
    ∧ ((s.clamp bound).pos.x + (s.clamp bound).size.x
        = clampf (s.pos.x + s.size.x) bound.pos.x (bound.pos.x + bound.size.x)
      ∧ (s.clamp bound).pos.y + (s.clamp bound).size.y
        = clampf (s.pos.y + s.size.y) bound.pos.y (bound.pos.y + bound.size.y))
    ∧ (bound.pos.x ≤ (s.clamp bound).pos.x
      ∧ (s.clamp bound).pos.x + (s.clamp bound).size.x ≤ bound.pos.x + bound.size.x
      ∧ bound.pos.y ≤ (s.clamp bound).pos.y
      ∧ (s.clamp bound).pos.y + (s.clamp bound).size.y ≤ bound.pos.y + bound.size.y)
    ∧ (s.pos.x ≤ bound.pos.x + bound.size.x → bound.pos.x ≤ s.pos.x + s.size.x →
        (s.clamp bound).pos.x = max s.pos.x bound.pos.x
        ∧ (s.clamp bound).pos.x + (s.clamp bound).size.x
          = min (s.pos.x + s.size.x) (bound.pos.x + bound.size.x))
    ∧ (s.pos.y ≤ bound.pos.y + bound.size.y → bound.pos.y ≤ s.pos.y + s.size.y →
        (s.clamp bound).pos.y = max s.pos.y bound.pos.y
        ∧ (s.clamp bound).pos.y + (s.clamp bound).size.y
          = min (s.pos.y + s.size.y) (bound.pos.y + bound.size.y))
    ∧ ((s.pos.x ≤ bound.pos.x ∧ s.pos.x + s.size.x ≤ bound.pos.x) →
        (s.clamp bound).size.x = 0)
    ∧ ((bound.pos.x + bound.size.x ≤ s.pos.x ∧ bound.pos.x + bound.size.x ≤ s.pos.x + s.size.x) →
        (s.clamp bound).size.x = 0)
    ∧ ((s.pos.y ≤ bound.pos.y ∧ s.pos.y + s.size.y ≤ bound.pos.y) →
        (s.clamp bound).size.y = 0)
    ∧ ((bound.pos.y + bound.size.y ≤ s.pos.y ∧ bound.pos.y + bound.size.y ≤ s.pos.y + s.size.y) →
        (s.clamp bound).size.y = 0)
    ∧ (Rect.clamp ⟨⟨20, 0⟩, ⟨-15, 1⟩⟩ ⟨⟨0, 0⟩, ⟨10, 10⟩⟩).size.x = -5 := by
  have hx : bound.pos.x ≤ bound.pos.x + bound.size.x := by linarith
  have hy : bound.pos.y ≤ bound.pos.y + bound.size.y := by linarith
  have ex : (s.clamp bound).pos.x = clampf s.pos.x bound.pos.x (bound.pos.x + bound.size.x) := by
    show clamp2f _ _ _ = _
    exact clamp2f_eq_clampf _ hx
  have ey : (s.clamp bound).pos.y = clampf s.pos.y bound.pos.y (bound.pos.y + bound.size.y) := by
    show clamp2f _ _ _ = _
    exact clamp2f_eq_clampf _ hy
  have fx : (s.clamp bound).pos.x + (s.clamp bound).size.x
      = clampf (s.pos.x + s.size.x) bound.pos.x (bound.pos.x + bound.size.x) := by
    show clamp2f _ _ _ + (clampf _ _ _ - clamp2f _ _ _) = _
    ring
  have fy : (s.clamp bound).pos.y + (s.clamp bound).size.y
      = clampf (s.pos.y + s.size.y) bound.pos.y (bound.pos.y + bound.size.y) := by
    show clamp2f _ _ _ + (clampf _ _ _ - clamp2f _ _ _) = _
    ring
  refine ⟨⟨ex, ey⟩, ⟨fx, fy⟩, ⟨?_, ?_, ?_, ?_⟩, ?_, ?_, ?_, ?_, ?_, ?_, ?_⟩
  · rw [ex]; exact le_clampf _ hx
  · rw [fx]; exact clampf_le _ hx
  · rw [ey]; exact le_clampf _ hy
  · rw [fy]; exact clampf_le _ hy
  · intro h1 h2
    constructor
    · rw [ex, clampf_eq_max _ h1, max_comm]
    · rw [fx, clampf_eq_min _ h2, min_comm]
  · intro h1 h2
    constructor
    · rw [ey, clampf_eq_max _ h1, max_comm]
    · rw [fy, clampf_eq_min _ h2, min_comm]
  · rintro ⟨h1, h2⟩
    have e1 : (s.clamp bound).size.x
        = ((s.clamp bound).pos.x + (s.clamp bound).size.x) - (s.clamp bound).pos.x := by ring
    rw [e1, fx, ex, clampf_eq_max _ (le_trans h2 hx), clampf_eq_max _ (le_trans h1 hx),
      max_eq_left h2, max_eq_left h1]
    ring
  · rintro ⟨h1, h2⟩
    have e1 : (s.clamp bound).size.x
        = ((s.clamp bound).pos.x + (s.clamp bound).size.x) - (s.clamp bound).pos.x := by ring
    rw [e1, fx, ex, clampf_eq_min _ (le_trans hx h2), clampf_eq_min _ (le_trans hx h1),
      min_eq_left h2, min_eq_left h1]
    ring
  · rintro ⟨h1, h2⟩
    have e1 : (s.clamp bound).size.y
        = ((s.clamp bound).pos.y + (s.clamp bound).size.y) - (s.clamp bound).pos.y := by ring
    rw [e1, fy, ey, clampf_eq_max _ (le_trans h2 hy), clampf_eq_max _ (le_trans h1 hy),
      max_eq_left h2, max_eq_left h1]
    ring
  · rintro ⟨h1, h2⟩
    have e1 : (s.clamp bound).size.y
        = ((s.clamp bound).pos.y + (s.clamp bound).size.y) - (s.clamp bound).pos.y := by ring
    rw [e1, fy, ey, clampf_eq_min _ (le_trans hy h2), clampf_eq_min _ (le_trans hy h1),
      min_eq_left h2, min_eq_left h1]
    ring
  · norm_num [Rect.clamp, clamp2f, clampf]

/-- Witness for C2 at a concrete rectangle and bound. -/
theorem Rect.clamp_spec_witness :
    (0:ℚ) ≤ 10
    ∧ (Rect.clamp ⟨⟨-5, -5⟩, ⟨4, 4⟩⟩ ⟨⟨0, 0⟩, ⟨10, 10⟩⟩).pos.x = clampf (-5) 0 (0 + 10) :=
  ⟨by norm_num,
    (Rect.clamp_spec ⟨⟨-5, -5⟩, ⟨4, 4⟩⟩ ⟨⟨0, 0⟩, ⟨10, 10⟩⟩ (by norm_num) (by norm_num)).1.1⟩

/-- C3: for every array `p` and nonnegative fractional index `x` with
`i = floor(x)` and `f = x - i`, if `p` has length at least `floor(x) + 2`
then `interpf p x` succeeds (the out-of-bounds branch is unreachable) and
returns `crossf p[i] p[i+1] f`. -/
theorem interpf_spec (p : List ℚ) (x : ℚ) (hx : 0 ≤ x)
    (hlen : (⌊x⌋).toNat + 2 ≤ p.length) :
    (interpf p x).isSome
    ∧ interpf p x
      = some (crossf (p.getD (⌊x⌋).toNat 0) (p.getD ((⌊x⌋).toNat + 1) 0) (x - ⌊x⌋)) := by
  have htr : truncf x = ⌊x⌋ := by simp [truncf, hx]
  have h0 : 0 ≤ ⌊x⌋ := Int.floor_nonneg.mpr hx
  have h0' : 0 ≤ ⌊x⌋ + 1 := by omega
  have ht1 : (⌊x⌋ + 1).toNat = (⌊x⌋).toNat + 1 := by omega
  have hlt1 : (⌊x⌋).toNat < p.length := by omega
  have hlt2 : (⌊x⌋).toNat + 1 < p.length := by omega
  have r1 : readIdx p ⌊x⌋ = some (p.get ⟨(⌊x⌋).toNat, hlt1⟩) := by
    simp [readIdx, h0, List.get?_eq_get hlt1]
  have r2 : readIdx p (⌊x⌋ + 1) = some (p.get ⟨(⌊x⌋).toNat + 1, hlt2⟩) := by
    simp [readIdx, h0', ht1, List.get?_eq_get hlt2]
  have g1 : p.getD (⌊x⌋).toNat 0 = p.get ⟨(⌊x⌋).toNat, hlt1⟩ := by
    simp [List.getD_eq_getElem?_getD, List.getElem?_eq_getElem hlt1]
  have g2 : p.getD ((⌊x⌋).toNat + 1) 0 = p.get ⟨(⌊x⌋).toNat + 1, hlt2⟩ := by
    simp [List.getD_eq_getElem?_getD, List.getElem?_eq_getElem hlt2]
  rw [interpf]
  simp only [htr, r1, r2, g1, g2]
  simp

/-- Witness for C3 at `p = [1, 3, 5]`, `x = 1`. -/
theorem interpf_spec_witness :
    ((0:ℚ) ≤ 1 ∧ (⌊(1:ℚ)⌋).toNat + 2 ≤ [(1:ℚ), 3, 5].length)
    ∧ ((interpf [(1:ℚ), 3, 5] 1).isSome
      ∧ interpf [(1:ℚ), 3, 5] 1
        = some (crossf ([(1:ℚ), 3, 5].getD (⌊(1:ℚ)⌋).toNat 0)
            ([(1:ℚ), 3, 5].getD ((⌊(1:ℚ)⌋).toNat + 1) 0) (1 - ⌊(1:ℚ)⌋))) :=
  ⟨⟨by norm_num, by norm_num⟩,
    interpf_spec [1, 3, 5] 1 (by norm_num) (by norm_num)⟩

/-- C4: `Rect.intersects` holds iff the projections overlap with strict
inequality on both axes; touching rectangles do not intersect, properly
overlapping ones do. -/
theorem Rect.intersects_spec :
    (∀ a b : Rect,
      a.intersects b = true ↔
        (b.pos.x < a.pos.x + a.size.x ∧ a.pos.x < b.pos.x + b.size.x
          ∧ b.pos.y < a.pos.y + a.size.y ∧ a.pos.y < b.pos.y + b.size.y))
    ∧ Rect.intersects ⟨⟨0, 0⟩, ⟨10, 10⟩⟩ ⟨⟨10, 0⟩, ⟨10, 10⟩⟩ = false
    ∧ Rect.intersects ⟨⟨0, 0⟩, ⟨10, 10⟩⟩ ⟨⟨5, 0⟩, ⟨10, 10⟩⟩ = true := by
  refine ⟨?_, by norm_num [Rect.intersects], by norm_num [Rect.intersects]⟩
  intro a b
  simp [Rect.intersects, and_assoc]

/-- C5: `Rect.nudge` preserves the size and only repositions, clamping the
position into `[bound.pos, bound.pos + bound.size - size]` per axis; when
the size exceeds the bound's size on an axis the clamp's effective
min/max are swapped, so the position is still the clamp over the
reordered range. -/
theorem Rect.nudge_spec (s bound : Rect) :
    (s.nudge bound).size = s.size
    ∧ (s.size.x ≤ bound.size.x →
        ((s.nudge bound).pos.x
            = clampf s.pos.x bound.pos.x (bound.pos.x + bound.size.x - s.size.x)
          ∧ bound.pos.x ≤ (s.nudge bound).pos.x
          ∧ (s.nudge bound).pos.x ≤ bound.pos.x + bound.size.x - s.size.x))
    ∧ (s.size.y ≤ bound.size.y →
        ((s.nudge bound).pos.y
            = clampf s.pos.y bound.pos.y (bound.pos.y + bound.size.y - s.size.y)
          ∧ bound.pos.y ≤ (s.nudge bound).pos.y
          ∧ (s.nudge bound).pos.y ≤ bound.pos.y + bound.size.y - s.size.y))
    ∧ (bound.size.x < s.size.x →
        (s.nudge bound).pos.x
          = clampf s.pos.x (bound.pos.x + bound.size.x - s.size.x) bound.pos.x)
    ∧ (bound.size.y < s.size.y →
        (s.nudge bound).pos.y
          = clampf s.pos.y (bound.pos.y + bound.size.y - s.size.y) bound.pos.y) := by
  refine ⟨rfl, ?_, ?_, ?_, ?_⟩
  · intro h
    have hord : bound.pos.x ≤ bound.pos.x + bound.size.x - s.size.x := by linarith
    have e : (s.nudge bound).pos.x
        = clampf s.pos.x bound.pos.x (bound.pos.x + bound.size.x - s.size.x) :=
      clamp2f_eq_clampf _ hord
    exact ⟨e, by rw [e]; exact le_clampf _ hord, by rw [e]; exact clampf_le _ hord⟩
  · intro h
    have hord : bound.pos.y ≤ bound.pos.y + bound.size.y - s.size.y := by linarith
    have e : (s.nudge bound).pos.y
        = clampf s.pos.y bound.pos.y (bound.pos.y + bound.size.y - s.size.y) :=
      clamp2f_eq_clampf _ hord
    exact ⟨e, by rw [e]; exact le_clampf _ hord, by rw [e]; exact clampf_le _ hord⟩
  · intro h
    exact clamp2f_eq_clampf_swap _ (by linarith)
  · intro h
    exact clamp2f_eq_clampf_swap _ (by linarith)

/-- Witness for C5 at a concrete rectangle and bound. -/
theorem Rect.nudge_spec_witness :
    (4:ℚ) ≤ 10
    ∧ ((Rect.nudge ⟨⟨-5, -5⟩, ⟨4, 4⟩⟩ ⟨⟨0, 0⟩, ⟨10, 10⟩⟩).pos.x
        = clampf (-5) 0 (0 + 10 - 4)
      ∧ 0 ≤ (Rect.nudge ⟨⟨-5, -5⟩, ⟨4, 4⟩⟩ ⟨⟨0, 0⟩, ⟨10, 10⟩⟩).pos.x
      ∧ (Rect.nudge ⟨⟨-5, -5⟩, ⟨4, 4⟩⟩ ⟨⟨0, 0⟩, ⟨10, 10⟩⟩).pos.x ≤ 0 + 10 - 4) :=
  ⟨by norm_num,
    (Rect.nudge_spec ⟨⟨-5, -5⟩, ⟨4, 4⟩⟩ ⟨⟨0, 0⟩, ⟨10, 10⟩⟩).2.1 (by norm_num)⟩

/-- C6: `clamp2f` is independent of the order of its bound arguments, and
it is the ordered clamp applied to the elementwise min/max of the pair. -/
theorem clamp2f_spec (x mn mx : ℚ) :
    clamp2f x mn mx = clamp2f x mx mn
    ∧ clamp2f x mn mx = clampf x (min mn mx) (max mn mx) := by
  constructor
  · unfold clamp2f
    rw [min_comm, max_comm]
  · rfl

/-- C7: `log2i` is total on naturals and returns `floor(log2 n)` for
`n ≥ 1` (so `2 ^ log2i n ≤ n < 2 ^ (log2i n + 1)`), with
`log2i 0 = 0`, `log2i 1 = 0`, `log2i 8 = 3`, `log2i 15 = 3`. -/
theorem log2i_spec :
    log2i 0 = 0 ∧ log2i 1 = 0 ∧ log2i 8 = 3 ∧ log2i 15 = 3
    ∧ ∀ n : ℕ, 1 ≤ n → 2 ^ log2i n ≤ n ∧ n < 2 ^ (log2i n + 1) := by
  refine ⟨by simp [log2i], by simp [log2i], by simp [log2i], by simp [log2i], ?_⟩
  intro n
  induction n using Nat.strong_induction_on with
  | _ n ih =>
    intro hn
    rw [log2i]
    split
    · next h =>
        have hone : n = 1 := by omega
        subst hone
        decide
    · next h =>
        have h2 : 1 ≤ n / 2 := by omega
        have hlt : n / 2 < n := by omega
        obtain ⟨l, u⟩ := ih (n / 2) hlt h2
        have e1 : 2 ^ (1 + log2i (n / 2)) = 2 * 2 ^ log2i (n / 2) := by
          rw [pow_add]; ring
        have e2 : 2 ^ (1 + log2i (n / 2) + 1) = 2 * 2 ^ (log2i (n / 2) + 1) := by
          rw [pow_add, pow_add]; ring
        omega

/-- Witness for C7 at `n = 5`. -/
theorem log2i_spec_witness :
    1 ≤ 5 ∧ (2 ^ log2i 5 ≤ 5 ∧ 5 < 2 ^ (log2i 5 + 1)) :=
  ⟨by norm_num, log2i_spec.2.2.2.2 5 (by norm_num)⟩

/-- C8: `sgnf` returns `+1.0` for inputs with a clear sign bit (positive
numbers and `+0.0`) and `-1.0` for inputs with a set sign bit (negative
numbers and `-0.0`), distinguishing signed zero via the copy-sign
primitive. -/
theorem sgnf_spec :
    (∀ x : SFloat, sgnf x = ⟨x.neg, 1⟩)
    ∧ (∀ x : SFloat, x.neg = false → sgnf x = SFloat.one)
    ∧ (∀ x : SFloat, x.neg = true → sgnf x = SFloat.negOne)
    ∧ sgnf SFloat.negZero = SFloat.negOne
    ∧ sgnf SFloat.posZero = SFloat.one := by
  refine ⟨fun x => rfl, ?_, ?_, rfl, rfl⟩
  · intro x h
    simp [sgnf, copysignf, SFloat.one, h]
  · intro x h
    simp [sgnf, copysignf, SFloat.one, SFloat.negOne, h]

/-- Witness for C8 at `+0.0`. -/
theorem sgnf_spec_witness :
    SFloat.posZero.neg = false ∧ sgnf SFloat.posZero = SFloat.one :=
  ⟨rfl, sgnf_spec.2.1 SFloat.posZero rfl⟩

/-- C9: `cmultf` writes `(ar*br - ai*bi, ar*bi + ai*br)` into the two
output cells for any memory and any distinct cells — in particular when
the output cells are the ones the inputs were read from (aliasing), with
the same values as when writing into fresh storage, shown concretely for
`a = (3,4)`, `b = (1,2)` giving `(-5, 10)`. -/
theorem cmultf_spec :
    (∀ (mem : ℕ → ℚ) (cr ci : ℕ) (ar ai br bi : ℚ), cr ≠ ci →
        cmultf cr ci ar ai br bi mem cr = ar * br - ai * bi
        ∧ cmultf cr ci ar ai br bi mem ci = ar * bi + ai * br)
    ∧ (let mem : ℕ → ℚ := fun i => if i = 0 then 3 else if i = 1 then 4 else 0
       cmultf 0 1 (mem 0) (mem 1) 1 2 mem 0 = -5
       ∧ cmultf 0 1 (mem 0) (mem 1) 1 2 mem 1 = 10
       ∧ cmultf 2 3 (mem 0) (mem 1) 1 2 mem 2 = -5
       ∧ cmultf 2 3 (mem 0) (mem 1) 1 2 mem 3 = 10) := by
  constructor
  · intro mem cr ci ar ai br bi hne
    constructor
    · simp [cmultf, Function.update_noteq hne]
    · simp [cmultf]
  · refine ⟨?_, ?_, ?_, ?_⟩ <;> norm_num [cmultf, Function.update]

/-- Witness for C9 at cells `0 ≠ 1` and `a = (3,4)`, `b = (1,2)`. -/
theorem cmultf_spec_witness :
    (0 : ℕ) ≠ 1
    ∧ (cmultf 0 1 3 4 1 2 (fun _ => 0) 0 = 3 * 1 - 4 * 2
       ∧ cmultf 0 1 3 4 1 2 (fun _ => 0) 1 = 3 * 2 + 4 * 1) :=
  ⟨by norm_num, cmultf_spec.1 (fun _ => 0) 0 1 3 4 1 2 (by norm_num)⟩

/-- C10: `clampf` and `clampi` deterministically return `min` if
`x < min`, otherwise `max` if `x > max`, otherwise `x`, even when
`min > max` (e.g. `clampf 5 10 0 = 10`), so the result is always one of
the three arguments. -/
theorem clampf_clampi_spec :
    (∀ x mn mx : ℚ,
      (clampf x mn mx = mn ∨ clampf x mn mx = mx ∨ clampf x mn mx = x)
      ∧ (x < mn → clampf x mn mx = mn)
      ∧ (¬ x < mn → mx < x → clampf x mn mx = mx)
      ∧ (¬ x < mn → ¬ mx < x → clampf x mn mx = x))
    ∧ (∀ x mn mx : ℤ,
      (clampi x mn mx = mn ∨ clampi x mn mx = mx ∨ clampi x mn mx = x)
      ∧ (x < mn → clampi x mn mx = mn)
      ∧ (¬ x < mn → mx < x → clampi x mn mx = mx)
      ∧ (¬ x < mn → ¬ mx < x → clampi x mn mx = x))
    ∧ clampf 5 10 0 = 10
    ∧ clampi 5 10 0 = 10 := by
  refine ⟨?_, ?_, by norm_num [clampf], by decide⟩
  · intro x mn mx
    unfold clampf
    refine ⟨?_, ?_, ?_, ?_⟩ <;> intros <;> split_ifs <;> tauto
  · intro x mn mx
    unfold clampi
    refine ⟨?_, ?_, ?_, ?_⟩ <;> intros <;> split_ifs <;> tauto

/-- Witness for C10 at `x = 5`, `min = 10`, `max = 0` over `ℚ`. -/
theorem clampf_clampi_spec_witness :
    (5:ℚ) < 10 ∧ clampf 5 10 0 = 10 :=
  ⟨by norm_num, (clampf_clampi_spec.1 5 10 0).2.1 (by norm_num)⟩

end rack
